import Mathlib

/-!
Shallow embedding of `src/check_urls.py` (subsidy-url-watch): a script that
fetches a list of URLs, normalizes each page to plain text, compares a
SHA-256 fingerprint against persisted state, builds a bounded unified diff
for changed pages, persists the new snapshots, and sends one notification
e-mail when at least one page changed or errored.

External collaborators (the network, BeautifulSoup, hashlib, the clock) are
oracle parameters in `Config`; the persisted state (`state.json`) and the
per-URL text directory (`state_text/`) are association lists keyed by URL
resp. by derived URL key.  Python's `difflib.unified_diff` (standard
library, not repository code) is modelled by a unified-diff generator that
emits the same line format (`--- before` / `+++ after` headers, `@@ ... @@`
hunk headers, ` `-prefixed context, `-`/`+` content lines) over a
longest-common-subsequence matching.
-/

namespace CheckUrls

/-- Split a character list at newline characters; `acc` holds the current
line reversed. -/
def splitNlChars : List Char → List Char → List (List Char)
  | [], acc => [acc.reverse]
  | c :: cs, acc =>
    if c = '\n' then acc.reverse :: splitNlChars cs []
    else splitNlChars cs (c :: acc)

/-- Python `str.splitlines()` restricted to `"\n"` separators (the only
separator occurring in normalized text): `""` gives `[]`, a trailing
newline does not produce a trailing empty line. -/
def pySplitlines (s : String) : List String :=
  if s = "" then []
  else
    let parts := (splitNlChars s.toList []).map (fun cs => String.mk cs)
    if s.toList.getLast? = some '\n' then parts.dropLast else parts

/-- Python `str.startswith`. -/
def strStartsWith (s p : String) : Bool :=
  p.toList.isPrefixOf s.toList

/-- The characters Python `str.strip()` removes. -/
def pyIsSpace (c : Char) : Bool :=
  c = ' ' || c = '\t' || c = '\n' || c = '\r' || c = '\x0b' || c = '\x0c'

/-! ## Model of Python difflib.unified_diff -/

/-- The opcode tags of difflib `SequenceMatcher.get_opcodes`. -/
inductive OpTag where
  | equal
  | replace
  | delete
  | insert
deriving Repr, DecidableEq, BEq

/-- One opcode `(tag, i1, i2, j1, j2)`: positions `[i1, i2)` of the first
sequence correspond to `[j1, j2)` of the second. -/
structure Opcode where
  tag : OpTag
  i1 : Nat
  i2 : Nat
  j1 : Nat
  j2 : Nat
deriving Repr, DecidableEq, BEq

/-- Fuel-indexed longest-common-subsequence worker: every recursive call
consumes one unit of fuel and shortens the two lists by one element in
total, so `lcs` below always supplies enough fuel. -/
def lcsAux : Nat → List String → List String → List String
  | 0, _, _ => []
  | _ + 1, [], _ => []
  | _ + 1, _, [] => []
  | fuel + 1, x :: xs, y :: ys =>
    if x = y then x :: lcsAux fuel xs ys
    else
      let a := lcsAux fuel (x :: xs) ys
      let b := lcsAux fuel xs (y :: ys)
      if b.length ≤ a.length then a else b

/-- A longest common subsequence of two lists of lines (the matching on
which the modelled `unified_diff` aligns the two sequences). -/
def lcs (xs ys : List String) : List String :=
  lcsAux (xs.length + ys.length) xs ys

/-- The elements of a list strictly before the first occurrence of `c`. -/
def takeUntil (c : String) : List String → List String
  | [] => []
  | x :: xs => if x = c then [] else x :: takeUntil c xs

/-- The elements of a list strictly after the first occurrence of `c`. -/
def dropUntilAfter (c : String) : List String → List String
  | [] => []
  | x :: xs => if x = c then xs else dropUntilAfter c xs

/-- The opcode (if any) covering an unmatched segment `xs` vs `ys` that
starts at positions `i` and `j`. -/
def segOps (i j : Nat) (xs ys : List String) : List Opcode :=
  match xs, ys with
  | [], [] => []
  | [], ys => [⟨OpTag.insert, i, i, j, j + ys.length⟩]
  | xs, [] => [⟨OpTag.delete, i, i + xs.length, j, j⟩]
  | xs, ys => [⟨OpTag.replace, i, i + xs.length, j, j + ys.length⟩]

/-- Opcodes aligning `xs` and `ys` along the given common subsequence
(unit `equal` opcodes; adjacent ones are merged by `coalesce`). -/
def opsAux : List String → List String → Nat → Nat → List String → List Opcode
  | xs, ys, i, j, [] => segOps i j xs ys
  | xs, ys, i, j, c :: cs =>
    let ax := takeUntil c xs
    let ay := takeUntil c ys
    let i2 := i + ax.length
    let j2 := j + ay.length
    segOps i j ax ay ++
      ⟨OpTag.equal, i2, i2 + 1, j2, j2 + 1⟩ ::
        opsAux (dropUntilAfter c xs) (dropUntilAfter c ys) (i2 + 1) (j2 + 1) cs

/-- Worker for `coalesce`: `a` is the opcode currently being extended. -/
def coalesceAux (a : Opcode) : List Opcode → List Opcode
  | [] => [a]
  | b :: rest =>
    if a.tag == OpTag.equal && b.tag == OpTag.equal && a.i2 == b.i1 && a.j2 == b.j1 then
      coalesceAux { a with i2 := b.i2, j2 := b.j2 } rest
    else a :: coalesceAux b rest

/-- Merge adjacent `equal` opcodes into maximal runs, as difflib's
`get_opcodes` returns them. -/
def coalesce : List Opcode → List Opcode
  | [] => []
  | a :: rest => coalesceAux a rest

/-- Model of `SequenceMatcher(None, a, b).get_opcodes()`. -/
def get_opcodes (a b : List String) : List Opcode :=
  coalesce (opsAux a b 0 0 (lcs a b))

/-- difflib `get_grouped_opcodes`: shrink a leading `equal` opcode to `n`
lines of context. -/
def adjustFirst (n : Nat) : List Opcode → List Opcode
  | [] => []
  | op :: rest =>
    if op.tag == OpTag.equal then
      { op with i1 := Nat.max op.i1 (op.i2 - n), j1 := Nat.max op.j1 (op.j2 - n) } :: rest
    else op :: rest

/-- difflib `get_grouped_opcodes`: shrink a trailing `equal` opcode to `n`
lines of context. -/
def adjustLast (n : Nat) (ops : List Opcode) : List Opcode :=
  match ops.getLast? with
  | none => []
  | some op =>
    if op.tag == OpTag.equal then
      ops.dropLast ++ [{ op with i2 := Nat.min op.i2 (op.i1 + n), j2 := Nat.min op.j2 (op.j1 + n) }]
    else ops

/-- difflib `get_grouped_opcodes` main loop: split the opcode list into
hunk groups at `equal` stretches longer than `nn = 2 * n`, keeping `n`
context lines on each side; a final group consisting of one `equal`
opcode is not yielded. -/
def groupLoop (nn n : Nat) : List Opcode → List Opcode → List (List Opcode)
  | group, [] =>
    if group.isEmpty then []
    else if group.length == 1 && (group.headD ⟨OpTag.equal, 0, 0, 0, 0⟩).tag == OpTag.equal then []
    else [group]
  | group, op :: rest =>
    if op.tag == OpTag.equal && nn < op.i2 - op.i1 then
      (group ++ [{ op with i2 := Nat.min op.i2 (op.i1 + n), j2 := Nat.min op.j2 (op.j1 + n) }]) ::
        groupLoop nn n
          [{ op with i1 := Nat.max op.i1 (op.i2 - n), j1 := Nat.max op.j1 (op.j2 - n) }] rest
    else groupLoop nn n (group ++ [op]) rest

/-- Model of difflib `SequenceMatcher.get_grouped_opcodes(n)`. -/
def get_grouped_opcodes (n : Nat) (codes : List Opcode) : List (List Opcode) :=
  let codes1 := if codes.isEmpty then [⟨OpTag.equal, 0, 1, 0, 1⟩] else codes
  groupLoop (n + n) n [] (adjustLast n (adjustFirst n codes1))

/-- difflib `_format_range_unified`. -/
def formatRangeUnified (start stop : Nat) : String :=
  let beginning := start + 1
  let length := stop - start
  if length = 1 then toString beginning
  else if length = 0 then toString (beginning - 1) ++ ",0"
  else toString beginning ++ "," ++ toString length

/-- The lines difflib emits for one hunk group: the `@@` header followed by
context lines (prefixed by a space), removals (`-`) and additions (`+`). -/
def emitGroup (a b : List String) (group : List Opcode) : List String :=
  match group.head?, group.getLast? with
  | some first, some last =>
    ("@@ -" ++ formatRangeUnified first.i1 last.i2 ++ " +" ++
        formatRangeUnified first.j1 last.j2 ++ " @@") ::
      group.flatMap (fun op =>
        match op.tag with
        | OpTag.equal => ((a.drop op.i1).take (op.i2 - op.i1)).map (fun ln => " " ++ ln)
        | OpTag.replace =>
            ((a.drop op.i1).take (op.i2 - op.i1)).map (fun ln => "-" ++ ln) ++
              ((b.drop op.j1).take (op.j2 - op.j1)).map (fun ln => "+" ++ ln)
        | OpTag.delete => ((a.drop op.i1).take (op.i2 - op.i1)).map (fun ln => "-" ++ ln)
        | OpTag.insert => ((b.drop op.j1).take (op.j2 - op.j1)).map (fun ln => "+" ++ ln))
  | _, _ => []

/-- Model of `difflib.unified_diff(a, b, fromfile="before", tofile="after",
lineterm="", n=1)` as the Python source calls it: no output for equal
sequences; otherwise the two file headers followed by the hunks. -/
def unified_diff (a b : List String) : List String :=
  let groups := get_grouped_opcodes 1 (get_opcodes a b)
  if groups.isEmpty then []
  else "--- before" :: "+++ after" :: groups.flatMap (emitGroup a b)

/-! ## make_diff (src/check_urls.py lines 143-164) -/

/-- `ln.startswith(("---", "+++", "@@"))`: the file-header and hunk-header
lines that `make_diff` skips. -/
def isHeaderLine (ln : String) : Bool :=
  strStartsWith ln "---" || strStartsWith ln "+++" || strStartsWith ln "@@"

/-- `ln.startswith(("+", "-")) and ln[1:].strip()`: an addition/removal
line whose content after the tag (`ln[1:]`) is not blank, i.e. holds at
least one non-whitespace character. -/
def isDisplayLine (ln : String) : Bool :=
  (strStartsWith ln "+" || strStartsWith ln "-") &&
    (ln.toList.drop 1).any (fun c => !pyIsSpace c)

/-- The `for ln in diff_iter` loop of `make_diff`: skip header lines, pick
non-blank `+`/`-` lines, stop as soon as `picked` has reached `max_lines`
elements (the bound is checked after each non-header line).  The
accumulator is kept reversed. -/
def pickLoop (max_lines : Nat) : List String → List String → List String
  | [], picked => picked.reverse
  | ln :: rest, picked =>
    if isHeaderLine ln then pickLoop max_lines rest picked
    else
      let picked1 := if isDisplayLine ln then ln :: picked else picked
      if max_lines ≤ picked1.length then picked1.reverse
      else pickLoop max_lines rest picked1

/-- `make_diff(prev_text, curr_text, max_lines=20)`. -/
def make_diff (prev_text curr_text : String) (max_lines : Nat := 20) : List String :=
  pickLoop max_lines (unified_diff (pySplitlines prev_text) (pySplitlines curr_text)) []

/-! ## Persisted state, oracles and the run orchestrator (main) -/

/-- One value of the `state.json` mapping: a JSON object that may carry a
`"hash"` field and a `"last_checked"` field (`state.get(url, {}).get("hash")`
tolerates both missing). -/
structure Entry where
  hash? : Option String
  last_checked? : Option String
deriving Repr, DecidableEq

/-- The `state.json` dictionary: URL → entry. -/
abbrev StateMap := List (String × Entry)

/-- The `state_text/` directory: file stem (derived URL key) → file text. -/
abbrev TextDir := List (String × String)

/-- Dictionary lookup (also models "the file with this stem exists and has
this content"). -/
def lookupKey (k : String) : List (String × α) → Option α
  | [] => none
  | (k2, v) :: rest => if k2 = k then some v else lookupKey k rest

/-- Dictionary assignment `d[k] = v` (overwrites in place, appends a new
key at the end); also models overwriting the file with stem `k`. -/
def setKey (k : String) (v : α) : List (String × α) → List (String × α)
  | [] => [(k, v)]
  | (k2, v2) :: rest => if k2 = k then (k, v) :: rest else (k2, v2) :: setKey k v rest

/-- Python truthiness of `prev_hash` (a `str | None`): `None` and `""` are
falsy. -/
def pyTruthy : Option String → Bool
  | none => false
  | some s => s ≠ ""

/-- The external collaborators of one run, as oracles:
`hash` models `sha256` (hashlib SHA-256 hex digest of the text);
`urlKey` models `url_key` (truncated SHA-256 hex digest of the URL);
`fetch` models `fetch` (requests with retries — net effect: the decoded
body, or the string of the last exception);
`normalize` models `normalize_html_to_text` (BeautifulSoup text
extraction, which runs inside the same try block, so a failure is recorded
exactly like a fetch failure);
`nowIso` models the `datetime.datetime.utcnow().isoformat(...) + "Z"`
stamp and `todayIso` the `datetime.date.today().isoformat()` stamp of the
run. -/
structure Config where
  hash : String → String
  urlKey : String → String
  fetch : String → Except String String
  normalize : String → Except String String
  nowIso : String
  todayIso : String

/-- The observable side effects of a run, in program order: writing one
`state_text/<key>.txt` file (`save_curr_text`), writing `state.json`
(`save_state`), and sending the notification (`send_email`). -/
inductive Event where
  | saveText : String → String → Event
  | saveState : StateMap → Event
  | sendEmail : String → String → Event
deriving Repr, DecidableEq

/-- The mutable data of `main`: the in-memory state dictionary, the text
directory, the `changed_reports` and `errors` accumulators, and the trace
of side effects so far. -/
structure RunState where
  state : StateMap
  dir : TextDir
  changed_reports : List (String × List String)
  errors : List (String × String)
  events : List Event
deriving Repr, DecidableEq

/-- `DIFF_MAX_LINES = 20`. -/
def DIFF_MAX_LINES : Nat := 20

/-- `cleanup_state(active_urls, state)` together with its effect on the
`state_text` directory: delete every `state_text/*.txt` whose stem is not
the key of an active URL, and delete every `state.json` key that is not an
active URL. -/
def cleanup_state (cfg : Config) (active_urls : List String) (state : StateMap)
    (dir : TextDir) : StateMap × TextDir :=
  let active_keys := active_urls.map cfg.urlKey
  (state.filter (fun p => active_urls.contains p.1),
   dir.filter (fun p => active_keys.contains p.1))

/-- `html = fetch(url)` followed by `curr_text = normalize_html_to_text(html)`
inside the per-URL try block: the first exception wins. -/
def fetchNormalize (cfg : Config) (url : String) : Except String String :=
  match cfg.fetch url with
  | Except.ok html => cfg.normalize html
  | Except.error e => Except.error e

/-- The body of `for url in urls` in `main` (src/check_urls.py lines
198-219): on failure append `(url, str(e))` to `errors`; on success
compute the fingerprint, read the prior hash and prior text, append a
changed report exactly when the prior hash is truthy, differs from the new
one and the prior text file exists, then overwrite the text file and the
state entry. -/
def processUrl (cfg : Config) (rs : RunState) (url : String) : RunState :=
  match fetchNormalize cfg url with
  | Except.error e => { rs with errors := rs.errors ++ [(url, e)] }
  | Except.ok curr_text =>
    let curr_hash := cfg.hash curr_text
    let prev_hash := (lookupKey url rs.state).bind Entry.hash?
    let prev_text := lookupKey (cfg.urlKey url) rs.dir
    let rs1 :=
      match prev_hash, prev_text with
      | some ph, some pt =>
        if ph ≠ "" ∧ ph ≠ curr_hash then
          { rs with changed_reports :=
              rs.changed_reports ++ [(url, make_diff pt curr_text DIFF_MAX_LINES)] }
        else rs
      | _, _ => rs
    let key := cfg.urlKey url
    { rs1 with
      dir := setKey key curr_text rs1.dir,
      state := setKey url { hash? := some curr_hash, last_checked? := some cfg.nowIso } rs1.state,
      events := rs1.events ++ [Event.saveText key curr_text] }

/-- The notification body (src/check_urls.py lines 228-248) as its list of
lines.  Note line 235 of the source appends `f""` — an empty string, not
the URL — before each changed report's diff lines. -/
def buildBody (changed_reports : List (String × List String))
    (errors : List (String × String)) : List String :=
  let l1 : List String :=
    if changed_reports.isEmpty then []
    else
      ["■ 更新が検知されたURL（差分 +追加 / -削除：最大20行）", ""] ++
        changed_reports.flatMap (fun p =>
          [""] ++
            (if p.2.isEmpty then ["(差分が大きい/特殊で20行以内に収まりませんでした)"] else p.2) ++
            [""])
  let l2 : List String :=
    if errors.isEmpty then l1
    else
      l1 ++ ["■ 取得エラー（サイト側ブロック/一時障害の可能性）"] ++
        errors.map (fun p => "- " ++ p.1 ++ " : " ++ p.2) ++ [""]
  l2 ++ ["（このメールは自動送信です）"]

/-- `main()` (src/check_urls.py lines 188-252), with the URL list, the
loaded state and the text directory as inputs: clean up stale entries,
process every URL in order, save the state, and send the notification
exactly when `changed_reports or errors` is truthy. -/
def main (cfg : Config) (urls : List String) (state0 : StateMap) (dir0 : TextDir) : RunState :=
  let cleaned := cleanup_state cfg urls state0 dir0
  let rs0 : RunState :=
    { state := cleaned.1, dir := cleaned.2, changed_reports := [], errors := [], events := [] }
  let rs := urls.foldl (processUrl cfg) rs0
  let rs1 := { rs with events := rs.events ++ [Event.saveState rs.state] }
  if rs.changed_reports.isEmpty ∧ rs.errors.isEmpty then rs1
  else
    let subject := "【補助金更新】" ++ cfg.todayIso
    let body := String.intercalate "\n" (buildBody rs.changed_reports rs.errors)
    { rs1 with events := rs1.events ++ [Event.sendEmail subject body] }

/-! ## Dictionary lemmas -/

theorem lookupKey_setKey_self {α : Type} (k : String) (v : α) (m : List (String × α)) :
    lookupKey k (setKey k v m) = some v := by
  induction m with
  | nil => simp [setKey, lookupKey]
  | cons p rest ih =>
    obtain ⟨k2, v2⟩ := p
    by_cases hk : k2 = k
    · simp [setKey, hk, lookupKey]
    · simp [setKey, hk, lookupKey, ih]

theorem lookupKey_setKey_ne {α : Type} (k u : String) (v : α) (m : List (String × α))
    (h : u ≠ k) : lookupKey u (setKey k v m) = lookupKey u m := by
  induction m with
  | nil =>
    simp only [setKey, lookupKey]
    rw [if_neg (Ne.symm h)]
  | cons p rest ih =>
    obtain ⟨k2, v2⟩ := p
    by_cases hk : k2 = k
    · subst hk
      simp [setKey, lookupKey, Ne.symm h]
    · by_cases hu : k2 = u
      · subst hu
        simp [setKey, lookupKey, h, hk]
      · simp [setKey, lookupKey, hk, hu, ih]

theorem lookupKey_filter_none {α : Type} (q : String → Bool) (m : List (String × α)) (u : String)
    (h : q u = false) : lookupKey u (m.filter (fun p => q p.1)) = none := by
  induction m with
  | nil => simp [lookupKey]
  | cons p rest ih =>
    obtain ⟨k, v⟩ := p
    by_cases hk : q k
    · have hne : ¬ k = u := by
        intro he
        rw [he, h] at hk
        exact Bool.false_ne_true hk
      simp [List.filter_cons, hk, lookupKey, hne, ih]
    · simp [List.filter_cons, hk, ih]

/-! ## pickLoop lemmas -/

/-- The number of lines of a diff stream that `make_diff` would keep
(non-header addition/removal lines with non-blank content): the number of
displayable changed lines of the underlying diff. -/
def countDisplay (stream : List String) : Nat :=
  (stream.filter (fun ln => !isHeaderLine ln && isDisplayLine ln)).length

theorem pickLoop_length_le (m : Nat) (stream : List String) :
    ∀ acc : List String, acc.length < m → (pickLoop m stream acc).length ≤ m := by
  induction stream with
  | nil =>
    intro acc h
    simp only [pickLoop, List.length_reverse]
    omega
  | cons ln rest ih =>
    intro acc h
    by_cases hh : isHeaderLine ln
    · simpa only [pickLoop, hh, if_true] using ih acc h
    · by_cases hd : isDisplayLine ln
      · by_cases hm : m ≤ acc.length + 1
        · simp only [pickLoop, hh, if_false, hd, if_true, List.length_cons, hm,
            List.length_reverse, Bool.false_eq_true]
          omega
        · simp only [pickLoop, hh, if_false, hd, if_true, List.length_cons, hm,
            Bool.false_eq_true]
          exact ih (ln :: acc) (by simp; omega)
      · have hm : ¬ m ≤ acc.length := by omega
        simp only [pickLoop, hh, if_false, hd, hm, Bool.false_eq_true]
        exact ih acc h

theorem pickLoop_mem (m : Nat) (stream : List String) :
    ∀ acc ln, ln ∈ pickLoop m stream acc →
      (isHeaderLine ln = false ∧ isDisplayLine ln = true) ∨ ln ∈ acc := by
  induction stream with
  | nil =>
    intro acc ln h
    right
    simpa [pickLoop] using h
  | cons l rest ih =>
    intro acc ln h
    by_cases hh : isHeaderLine l
    · exact ih acc ln (by simpa only [pickLoop, hh, if_true] using h)
    · have hhf : isHeaderLine l = false := by simpa using hh
      by_cases hd : isDisplayLine l
      · by_cases hm : m ≤ acc.length + 1
        · have h1 : ln = l ∨ ln ∈ acc := by
            simpa only [pickLoop, hh, if_false, hd, if_true, List.length_cons, hm,
              List.mem_reverse, List.mem_cons, Bool.false_eq_true] using h
          rcases h1 with h1 | h1
          · exact Or.inl ⟨h1 ▸ hhf, h1 ▸ hd⟩
          · exact Or.inr h1
        · have h1 := ih (l :: acc) ln
            (by simpa only [pickLoop, hh, if_false, hd, if_true, List.length_cons, hm,
              Bool.false_eq_true] using h)
          rcases h1 with h1 | h1
          · exact Or.inl h1
          · rcases List.mem_cons.mp h1 with h2 | h2
            · exact Or.inl ⟨h2 ▸ hhf, h2 ▸ hd⟩
            · exact Or.inr h2
      · have hdf : isDisplayLine l = false := by simpa using hd
        by_cases hm : m ≤ acc.length
        · right
          simpa only [pickLoop, hh, if_false, hdf, hm, if_true, List.mem_reverse,
            Bool.false_eq_true] using h
        · exact ih acc ln (by simpa only [pickLoop, hh, if_false, hdf, hm,
            Bool.false_eq_true] using h)

theorem pickLoop_length_eq (m : Nat) (stream : List String) :
    ∀ acc : List String, acc.length < m → m ≤ acc.length + countDisplay stream →
      (pickLoop m stream acc).length = m := by
  induction stream with
  | nil =>
    intro acc h1 h2
    simp only [countDisplay, List.filter_nil, List.length_nil] at h2
    omega
  | cons l rest ih =>
    intro acc h1 h2
    by_cases hh : isHeaderLine l
    · have hc : countDisplay (l :: rest) = countDisplay rest := by
        simp [countDisplay, List.filter_cons, hh]
      rw [hc] at h2
      simpa only [pickLoop, hh, if_true] using ih acc h1 h2
    · have hhf : isHeaderLine l = false := by simpa using hh
      by_cases hd : isDisplayLine l
      · have hc : countDisplay (l :: rest) = countDisplay rest + 1 := by
          simp [countDisplay, List.filter_cons, hhf, hd]
        by_cases hm : m ≤ acc.length + 1
        · simp only [pickLoop, hh, if_false, hd, if_true, List.length_cons, hm,
            List.length_reverse, Bool.false_eq_true]
          omega
        · simp only [pickLoop, hh, if_false, hd, if_true, List.length_cons, hm,
            Bool.false_eq_true]
          exact ih (l :: acc) (by simp; omega) (by simp; omega)
      · have hdf : isDisplayLine l = false := by simpa using hd
        have hc : countDisplay (l :: rest) = countDisplay rest := by
          simp [countDisplay, List.filter_cons, hdf]
        rw [hc] at h2
        have hm : ¬ m ≤ acc.length := by omega
        simp only [pickLoop, hh, if_false, hdf, hm, Bool.false_eq_true]
        exact ih acc h1 h2

/-! ## processUrl characterization lemmas -/

theorem processUrl_fields_error (cfg : Config) (rs : RunState) (url e : String)
    (h : fetchNormalize cfg url = Except.error e) :
    processUrl cfg rs url = { rs with errors := rs.errors ++ [(url, e)] } := by
  unfold processUrl
  rw [h]

theorem processUrl_fields_ok (cfg : Config) (rs : RunState) (url t : String)
    (h : fetchNormalize cfg url = Except.ok t) :
    (processUrl cfg rs url).errors = rs.errors ∧
    (processUrl cfg rs url).state =
      setKey url { hash? := some (cfg.hash t), last_checked? := some cfg.nowIso } rs.state ∧
    (processUrl cfg rs url).dir = setKey (cfg.urlKey url) t rs.dir ∧
    (processUrl cfg rs url).events = rs.events ++ [Event.saveText (cfg.urlKey url) t] := by
  unfold processUrl
  rw [h]
  dsimp only
  split
  · split <;> simp
  · simp

theorem processUrl_changed_eq (cfg : Config) (rs : RunState) (url t : String)
    (h : fetchNormalize cfg url = Except.ok t) :
    (processUrl cfg rs url).changed_reports =
      (match (lookupKey url rs.state).bind Entry.hash?, lookupKey (cfg.urlKey url) rs.dir with
        | some ph, some pt =>
          if ph ≠ "" ∧ ph ≠ cfg.hash t then
            rs.changed_reports ++ [(url, make_diff pt t DIFF_MAX_LINES)]
          else rs.changed_reports
        | _, _ => rs.changed_reports) := by
  unfold processUrl
  rw [h]
  dsimp only
  split
  · split <;> simp_all
  · rfl

/-! ## Invariants over the per-URL fold of main -/

theorem processUrl_errors_mem (cfg : Config) (rs : RunState) (url : String)
    {x : String × String} (h : x ∈ rs.errors) : x ∈ (processUrl cfg rs url).errors := by
  cases hf : fetchNormalize cfg url with
  | error e =>
    rw [processUrl_fields_error cfg rs url e hf]
    simp [h]
  | ok t =>
    rw [(processUrl_fields_ok cfg rs url t hf).1]
    exact h

theorem processUrl_events_mem (cfg : Config) (rs : RunState) (url : String)
    {ev : Event} (h : ev ∈ rs.events) : ev ∈ (processUrl cfg rs url).events := by
  cases hf : fetchNormalize cfg url with
  | error e =>
    rw [processUrl_fields_error cfg rs url e hf]
    exact h
  | ok t =>
    rw [(processUrl_fields_ok cfg rs url t hf).2.2.2]
    simp [h]

theorem foldl_errors_mem (cfg : Config) (l : List String) :
    ∀ (rs : RunState) (x : String × String), x ∈ rs.errors →
      x ∈ (l.foldl (processUrl cfg) rs).errors := by
  induction l with
  | nil => intro rs x h; simpa using h
  | cons v rest ih =>
    intro rs x h
    exact ih (processUrl cfg rs v) x (processUrl_errors_mem cfg rs v h)

theorem foldl_events_mem (cfg : Config) (l : List String) :
    ∀ (rs : RunState) (ev : Event), ev ∈ rs.events →
      ev ∈ (l.foldl (processUrl cfg) rs).events := by
  induction l with
  | nil => intro rs ev h; simpa using h
  | cons v rest ih =>
    intro rs ev h
    exact ih (processUrl cfg rs v) ev (processUrl_events_mem cfg rs v h)

theorem foldl_events_saveText (cfg : Config) (l : List String) :
    ∀ rs : RunState, (∀ ev ∈ rs.events, ∃ k t, ev = Event.saveText k t) →
      ∀ ev ∈ (l.foldl (processUrl cfg) rs).events, ∃ k t, ev = Event.saveText k t := by
  induction l with
  | nil => intro rs h ev hev; exact h ev (by simpa using hev)
  | cons v rest ih =>
    intro rs h ev hev
    refine ih (processUrl cfg rs v) ?_ ev hev
    intro ev2 hev2
    cases hf : fetchNormalize cfg v with
    | error e =>
      rw [processUrl_fields_error cfg rs v e hf] at hev2
      exact h ev2 hev2
    | ok t =>
      rw [(processUrl_fields_ok cfg rs v t hf).2.2.2] at hev2
      rcases List.mem_append.mp hev2 with h2 | h2
      · exact h ev2 h2
      · exact ⟨cfg.urlKey v, t, by simpa using h2⟩

theorem foldl_state_none (cfg : Config) (l : List String) :
    ∀ (rs : RunState) (u : String), (∀ v ∈ l, v ≠ u) → lookupKey u rs.state = none →
      lookupKey u (l.foldl (processUrl cfg) rs).state = none := by
  induction l with
  | nil => intro rs u _ h; simpa using h
  | cons v rest ih =>
    intro rs u hne h
    refine ih (processUrl cfg rs v) u (fun w hw => hne w (List.mem_cons_of_mem v hw)) ?_
    cases hf : fetchNormalize cfg v with
    | error e =>
      rw [processUrl_fields_error cfg rs v e hf]
      exact h
    | ok t =>
      rw [(processUrl_fields_ok cfg rs v t hf).2.1]
      rw [lookupKey_setKey_ne v u _ rs.state (Ne.symm (hne v (List.mem_cons_self v rest)))]
      exact h

theorem foldl_dir_none (cfg : Config) (l : List String) :
    ∀ (rs : RunState) (k : String), (∀ v ∈ l, cfg.urlKey v ≠ k) → lookupKey k rs.dir = none →
      lookupKey k (l.foldl (processUrl cfg) rs).dir = none := by
  induction l with
  | nil => intro rs k _ h; simpa using h
  | cons v rest ih =>
    intro rs k hne h
    refine ih (processUrl cfg rs v) k (fun w hw => hne w (List.mem_cons_of_mem v hw)) ?_
    cases hf : fetchNormalize cfg v with
    | error e =>
      rw [processUrl_fields_error cfg rs v e hf]
      exact h
    | ok t =>
      rw [(processUrl_fields_ok cfg rs v t hf).2.2.1]
      rw [lookupKey_setKey_ne (cfg.urlKey v) k _ rs.dir
        (Ne.symm (hne v (List.mem_cons_self v rest)))]
      exact h

theorem foldl_processes_each (cfg : Config) (l : List String) :
    ∀ rs : RunState, ∀ u ∈ l,
      (∃ e, fetchNormalize cfg u = Except.error e ∧
        (u, e) ∈ (l.foldl (processUrl cfg) rs).errors) ∨
      (∃ t, fetchNormalize cfg u = Except.ok t ∧
        Event.saveText (cfg.urlKey u) t ∈ (l.foldl (processUrl cfg) rs).events) := by
  induction l with
  | nil => intro rs u h; simp at h
  | cons v rest ih =>
    intro rs u hu
    rcases List.mem_cons.mp hu with h | h
    · subst h
      cases hf : fetchNormalize cfg u with
      | error e =>
        refine Or.inl ⟨e, rfl, ?_⟩
        simp only [List.foldl_cons]
        refine foldl_errors_mem cfg rest (processUrl cfg rs u) (u, e) ?_
        rw [processUrl_fields_error cfg rs u e hf]
        simp
      | ok t =>
        refine Or.inr ⟨t, rfl, ?_⟩
        simp only [List.foldl_cons]
        refine foldl_events_mem cfg rest (processUrl cfg rs u) _ ?_
        rw [(processUrl_fields_ok cfg rs u t hf).2.2.2]
        simp
    · simpa only [List.foldl_cons] using ih (processUrl cfg rs v) u h

/-! ## Characterization of main -/

/-- The run state main starts its per-URL loop from: the cleaned-up state
and text directory, empty accumulators, no events yet. -/
def initState (cfg : Config) (urls : List String) (state0 : StateMap) (dir0 : TextDir) :
    RunState :=
  { state := (cleanup_state cfg urls state0 dir0).1,
    dir := (cleanup_state cfg urls state0 dir0).2,
    changed_reports := [], errors := [], events := [] }

/-- The run state after main's per-URL loop. -/
def runFold (cfg : Config) (urls : List String) (state0 : StateMap) (dir0 : TextDir) :
    RunState :=
  urls.foldl (processUrl cfg) (initState cfg urls state0 dir0)

theorem main_spec (cfg : Config) (urls : List String) (state0 : StateMap) (dir0 : TextDir) :
    main cfg urls state0 dir0 =
      (let rs := runFold cfg urls state0 dir0
       if rs.changed_reports.isEmpty ∧ rs.errors.isEmpty then
         { rs with events := rs.events ++ [Event.saveState rs.state] }
       else
         { rs with events := rs.events ++ [Event.saveState rs.state] ++
             [Event.sendEmail ("【補助金更新】" ++ cfg.todayIso)
               (String.intercalate "\n" (buildBody rs.changed_reports rs.errors))] }) := by
  unfold main runFold initState
  dsimp only

theorem main_state (cfg : Config) (urls : List String) (state0 : StateMap) (dir0 : TextDir) :
    (main cfg urls state0 dir0).state = (runFold cfg urls state0 dir0).state := by
  rw [main_spec]
  dsimp only
  split <;> rfl

theorem main_dir (cfg : Config) (urls : List String) (state0 : StateMap) (dir0 : TextDir) :
    (main cfg urls state0 dir0).dir = (runFold cfg urls state0 dir0).dir := by
  rw [main_spec]
  dsimp only
  split <;> rfl

theorem main_changed_reports (cfg : Config) (urls : List String) (state0 : StateMap)
    (dir0 : TextDir) :
    (main cfg urls state0 dir0).changed_reports =
      (runFold cfg urls state0 dir0).changed_reports := by
  rw [main_spec]
  dsimp only
  split <;> rfl

theorem main_errors (cfg : Config) (urls : List String) (state0 : StateMap) (dir0 : TextDir) :
    (main cfg urls state0 dir0).errors = (runFold cfg urls state0 dir0).errors := by
  rw [main_spec]
  dsimp only
  split <;> rfl

theorem runFold_events_saveText (cfg : Config) (urls : List String) (state0 : StateMap)
    (dir0 : TextDir) :
    ∀ ev ∈ (runFold cfg urls state0 dir0).events, ∃ k t, ev = Event.saveText k t := by
  apply foldl_events_saveText
  intro ev hev
  simp [initState] at hev

/-! ## Concrete oracles and states used by the witness theorems -/

/-- A concrete oracle assignment: identity hash and URL key, fetch echoes
the URL back except that URL "b" always fails with "timed out", normalize
is the identity. -/
def sampleConfig : Config where
  hash := fun s => s
  urlKey := fun u => u
  fetch := fun u => if u = "b" then Except.error "timed out" else Except.ok u
  normalize := fun h => Except.ok h
  nowIso := "2026-10-12T00:00:00Z"
  todayIso := "2026-10-12"

/-- A mid-run state in which URL "u" has a prior fingerprint "old" and a
prior text file with content "old". -/
def sampleRun : RunState where
  state := [("u", { hash? := some "old", last_checked? := none })]
  dir := [("u", "old")]
  changed_reports := []
  errors := []
  events := []

/-- A mid-run state in which URL "u" still has a prior text file but no
state entry at all (so no prior fingerprint). -/
def sampleRunNoHash : RunState where
  state := []
  dir := [("u", "old")]
  changed_reports := []
  errors := []
  events := []

/-! ## The claims -/

/-- C1: a Changed outcome (an entry appended to changed_reports) is
produced for a URL only when fetch+normalize succeeded and, in the state
at the moment that URL is processed, a prior fingerprint existed (present
and non-empty), it differs from the fingerprint of the newly normalized
text, and the prior full text was retrievable; and whenever the prior
text file is missing the URL produces no Changed outcome, even when the
fingerprint is new. -/
theorem changed_report_requires_prior_state (cfg : Config) (rs : RunState) (url : String) :
    ((processUrl cfg rs url).changed_reports ≠ rs.changed_reports →
      ∃ t ph pt, fetchNormalize cfg url = Except.ok t ∧
        (lookupKey url rs.state).bind Entry.hash? = some ph ∧ ph ≠ "" ∧
        ph ≠ cfg.hash t ∧ lookupKey (cfg.urlKey url) rs.dir = some pt) ∧
    (lookupKey (cfg.urlKey url) rs.dir = none →
      (processUrl cfg rs url).changed_reports = rs.changed_reports) := by
  constructor
  · intro hne
    cases hf : fetchNormalize cfg url with
    | error e =>
      rw [processUrl_fields_error cfg rs url e hf] at hne
      simp at hne
    | ok t =>
      rw [processUrl_changed_eq cfg rs url t hf] at hne
      rcases hh : (lookupKey url rs.state).bind Entry.hash? with _ | ph
      · rw [hh] at hne
        simp at hne
      · rcases hp : lookupKey (cfg.urlKey url) rs.dir with _ | pt
        · rw [hh, hp] at hne
          simp at hne
        · rw [hh, hp] at hne
          dsimp only at hne
          by_cases hc : ph ≠ "" ∧ ph ≠ cfg.hash t
          · exact ⟨t, ph, pt, rfl, rfl, hc.1, hc.2, rfl⟩
          · rw [if_neg hc] at hne
            simp at hne
  · intro hp
    cases hf : fetchNormalize cfg url with
    | error e =>
      rw [processUrl_fields_error cfg rs url e hf]
    | ok t =>
      rw [processUrl_changed_eq cfg rs url t hf, hp]
      rcases (lookupKey url rs.state).bind Entry.hash? with _ | ph <;> rfl

theorem changed_report_requires_prior_state_witness :
    ∃ t ph pt, fetchNormalize sampleConfig "u" = Except.ok t ∧
      (lookupKey "u" sampleRun.state).bind Entry.hash? = some ph ∧ ph ≠ "" ∧
      ph ≠ sampleConfig.hash t ∧ lookupKey (sampleConfig.urlKey "u") sampleRun.dir = some pt :=
  (changed_report_requires_prior_state sampleConfig sampleRun "u").1 (by decide)

/-- C2: the list returned by make_diff with cap 20 has at most 20 lines,
contains no file-header (`---`/`+++`) or hunk-header (`@@`) line, and
every returned line is a `+`/`-` line whose content after the tag is not
blank. -/
theorem make_diff_bounded_and_filtered (prev curr : String) :
    (make_diff prev curr 20).length ≤ 20 ∧
      ∀ ln ∈ make_diff prev curr 20,
        strStartsWith ln "---" = false ∧ strStartsWith ln "+++" = false ∧
          strStartsWith ln "@@" = false ∧
          (strStartsWith ln "+" = true ∨ strStartsWith ln "-" = true) ∧
          (ln.toList.drop 1).any (fun c => !pyIsSpace c) = true := by
  constructor
  · exact pickLoop_length_le 20 _ [] (by simp)
  · intro ln hln
    rcases pickLoop_mem 20 _ [] ln hln with ⟨hh, hd⟩ | h
    · simp only [isHeaderLine, Bool.or_eq_false_iff] at hh
      simp only [isDisplayLine, Bool.and_eq_true, Bool.or_eq_true] at hd
      exact ⟨hh.1.1, hh.1.2, hh.2, hd.1, hd.2⟩
    · simp at h

theorem make_diff_bounded_and_filtered_witness :
    (make_diff "Program A: open" "Program A: closed" 20).length ≤ 20 :=
  (make_diff_bounded_and_filtered "Program A: open" "Program A: closed").1

/-- C3: the per-URL snapshot (text file keyed by the derived URL key, and
the state entry holding the new fingerprint and last-checked timestamp) is
overwritten exactly when fetch and normalize succeed, regardless of
whether the content changed; when fetch or normalize fails the text
directory and the state are left untouched. -/
theorem snapshot_overwrite_iff_success (cfg : Config) (rs : RunState) (url : String) :
    (∀ t, fetchNormalize cfg url = Except.ok t →
      lookupKey (cfg.urlKey url) (processUrl cfg rs url).dir = some t ∧
      lookupKey url (processUrl cfg rs url).state =
        some { hash? := some (cfg.hash t), last_checked? := some cfg.nowIso }) ∧
    (∀ e, fetchNormalize cfg url = Except.error e →
      (processUrl cfg rs url).dir = rs.dir ∧ (processUrl cfg rs url).state = rs.state) := by
  constructor
  · intro t ht
    obtain ⟨-, hst, hdir, -⟩ := processUrl_fields_ok cfg rs url t ht
    constructor
    · rw [hdir]
      exact lookupKey_setKey_self _ _ _
    · rw [hst]
      exact lookupKey_setKey_self _ _ _
  · intro e he
    rw [processUrl_fields_error cfg rs url e he]
    exact ⟨rfl, rfl⟩

theorem snapshot_overwrite_iff_success_witness :
    lookupKey (sampleConfig.urlKey "u") (processUrl sampleConfig sampleRun "u").dir = some "u" ∧
    lookupKey "u" (processUrl sampleConfig sampleRun "u").state =
      some { hash? := some (sampleConfig.hash "u"), last_checked? := some sampleConfig.nowIso } :=
  (snapshot_overwrite_iff_success sampleConfig sampleRun "u").1 "u"
    (by simp [fetchNormalize, sampleConfig])

/-- C4: after a run, the persisted state holds no entry for a URL outside
the input list, and (URL keys being collision-free on the URLs involved)
no stored text file for such a URL either, so a removed URL is fully
forgotten and a later re-add starts from scratch. -/
theorem state_purged_outside_input (cfg : Config) (urls : List String)
    (state0 : StateMap) (dir0 : TextDir) :
    (∀ u, u ∉ urls → lookupKey u (main cfg urls state0 dir0).state = none) ∧
    (∀ u, u ∉ urls → cfg.urlKey u ∉ urls.map cfg.urlKey →
      lookupKey (cfg.urlKey u) (main cfg urls state0 dir0).dir = none) := by
  constructor
  · intro u hu
    rw [main_state]
    refine foldl_state_none cfg urls (initState cfg urls state0 dir0) u
      (fun v hv he => hu (he ▸ hv)) ?_
    have hinit : (initState cfg urls state0 dir0).state =
        state0.filter (fun p => urls.contains p.1) := rfl
    rw [hinit]
    exact lookupKey_filter_none _ state0 u (by simpa using hu)
  · intro u hu hk
    rw [main_dir]
    refine foldl_dir_none cfg urls (initState cfg urls state0 dir0) (cfg.urlKey u)
      (fun v hv he => hk (he ▸ List.mem_map_of_mem cfg.urlKey hv)) ?_
    have hinit : (initState cfg urls state0 dir0).dir =
        dir0.filter (fun p => (urls.map cfg.urlKey).contains p.1) := rfl
    rw [hinit]
    exact lookupKey_filter_none _ dir0 (cfg.urlKey u) (by simpa using hk)

theorem state_purged_outside_input_witness :
    lookupKey "z"
      (main sampleConfig ["a"] [("z", { hash? := some "h", last_checked? := none })]
        [("z", "ztext")]).state = none :=
  (state_purged_outside_input sampleConfig ["a"]
    [("z", { hash? := some "h", last_checked? := none })] [("z", "ztext")]).1 "z" (by decide)

/-- C5: a fetch/normalize failure for one URL never aborts the run: for
every URL of the list, either its failure is recorded as an Error outcome
(with the failure's description), or it was processed to success and its
snapshot write appears in the run's event trace. -/
theorem error_isolation (cfg : Config) (urls : List String) (state0 : StateMap)
    (dir0 : TextDir) :
    ∀ url ∈ urls,
      (∃ e, fetchNormalize cfg url = Except.error e ∧
        (url, e) ∈ (main cfg urls state0 dir0).errors) ∨
      (∃ t, fetchNormalize cfg url = Except.ok t ∧
        Event.saveText (cfg.urlKey url) t ∈ (main cfg urls state0 dir0).events) := by
  intro url hu
  rcases foldl_processes_each cfg urls (initState cfg urls state0 dir0) url hu with
    ⟨e, he, hmem⟩ | ⟨t, ht, hmem⟩
  · refine Or.inl ⟨e, he, ?_⟩
    rw [main_errors]
    exact hmem
  · refine Or.inr ⟨t, ht, ?_⟩
    have hmem2 : Event.saveText (cfg.urlKey url) t ∈ (runFold cfg urls state0 dir0).events :=
      hmem
    rw [main_spec]
    dsimp only
    split <;> simp [hmem2]

theorem error_isolation_witness :
    (∃ e, fetchNormalize sampleConfig "b" = Except.error e ∧
      ("b", e) ∈ (main sampleConfig ["a", "b", "c"] [] []).errors) ∨
    (∃ t, fetchNormalize sampleConfig "b" = Except.ok t ∧
      Event.saveText (sampleConfig.urlKey "b") t ∈
        (main sampleConfig ["a", "b", "c"] [] []).events) :=
  error_isolation sampleConfig ["a", "b", "c"] [] [] "b" (by decide)

/-- C6: a run emits a send-email event exactly when at least one Changed
report or one Error outcome exists; with neither, the run ends silently
with no notification. -/
theorem notification_iff_changed_or_error (cfg : Config) (urls : List String)
    (state0 : StateMap) (dir0 : TextDir) :
    (∃ s b, Event.sendEmail s b ∈ (main cfg urls state0 dir0).events) ↔
      ((main cfg urls state0 dir0).changed_reports ≠ [] ∨
        (main cfg urls state0 dir0).errors ≠ []) := by
  have hsave := runFold_events_saveText cfg urls state0 dir0
  rw [main_changed_reports, main_errors, main_spec]
  dsimp only
  by_cases hsil : (runFold cfg urls state0 dir0).changed_reports.isEmpty ∧
      (runFold cfg urls state0 dir0).errors.isEmpty
  · rw [if_pos hsil]
    dsimp only
    constructor
    · rintro ⟨s, b, hmem⟩
      rcases List.mem_append.mp hmem with h | h
      · obtain ⟨k, t, he⟩ := hsave _ h
        simp at he
      · simp at h
    · intro h
      exfalso
      rcases h with h | h
      · exact h (List.isEmpty_iff.mp hsil.1)
      · exact h (List.isEmpty_iff.mp hsil.2)
  · rw [if_neg hsil]
    dsimp only
    constructor
    · intro _
      rcases not_and_or.mp hsil with h | h
      · refine Or.inl (fun he => h ?_)
        simp [he]
      · refine Or.inr (fun he => h ?_)
        simp [he]
    · intro _
      refine ⟨"【補助金更新】" ++ cfg.todayIso,
        String.intercalate "\n"
          (buildBody (runFold cfg urls state0 dir0).changed_reports
            (runFold cfg urls state0 dir0).errors), ?_⟩
      simp

theorem notification_iff_changed_or_error_witness :
    ∃ s b, Event.sendEmail s b ∈ (main sampleConfig ["b"] [] []).events :=
  (notification_iff_changed_or_error sampleConfig ["b"] [] []).mpr (Or.inr (by decide))

/-- C9: the run's event trace is some snapshot writes, then exactly one
state write — of the final state — then at most a notification send: the
state is persisted once, after all per-URL processing and before any
notification, so a failing send cannot affect the persisted state. -/
theorem state_persisted_once_before_send (cfg : Config) (urls : List String)
    (state0 : StateMap) (dir0 : TextDir) :
    ∃ pre post,
      (main cfg urls state0 dir0).events =
        pre ++ Event.saveState (main cfg urls state0 dir0).state :: post ∧
      (∀ ev ∈ pre, ∃ k t, ev = Event.saveText k t) ∧
      (∀ ev ∈ post, ∃ s b, ev = Event.sendEmail s b) := by
  have hsave := runFold_events_saveText cfg urls state0 dir0
  rw [main_state, main_spec]
  dsimp only
  by_cases hsil : (runFold cfg urls state0 dir0).changed_reports.isEmpty ∧
      (runFold cfg urls state0 dir0).errors.isEmpty
  · rw [if_pos hsil]
    refine ⟨(runFold cfg urls state0 dir0).events, [], by simp, hsave, by simp⟩
  · rw [if_neg hsil]
    refine ⟨(runFold cfg urls state0 dir0).events,
      [Event.sendEmail ("【補助金更新】" ++ cfg.todayIso)
        (String.intercalate "\n"
          (buildBody (runFold cfg urls state0 dir0).changed_reports
            (runFold cfg urls state0 dir0).errors))], by simp, hsave, ?_⟩
    intro ev hev
    simp only [List.mem_singleton] at hev
    exact ⟨_, _, hev⟩

theorem state_persisted_once_before_send_witness :
    ∃ pre post,
      (main sampleConfig ["a", "b"] [] []).events =
        pre ++ Event.saveState (main sampleConfig ["a", "b"] [] []).state :: post ∧
      (∀ ev ∈ pre, ∃ k t, ev = Event.saveText k t) ∧
      (∀ ev ∈ post, ∃ s b, ev = Event.sendEmail s b) :=
  state_persisted_once_before_send sampleConfig ["a", "b"] [] []

/-- C10: when a URL's state entry is absent or its hash field is missing
or empty, the URL never yields a Changed report — even when a prior text
file still exists — and on success it is recorded silently (no error)
while its snapshot and state entry are overwritten with the new
content. -/
theorem missing_hash_never_changed (cfg : Config) (rs : RunState) (url : String)
    (h : pyTruthy ((lookupKey url rs.state).bind Entry.hash?) = false) :
    (processUrl cfg rs url).changed_reports = rs.changed_reports ∧
    ∀ t, fetchNormalize cfg url = Except.ok t →
      (processUrl cfg rs url).errors = rs.errors ∧
      lookupKey (cfg.urlKey url) (processUrl cfg rs url).dir = some t ∧
      lookupKey url (processUrl cfg rs url).state =
        some { hash? := some (cfg.hash t), last_checked? := some cfg.nowIso } := by
  constructor
  · cases hf : fetchNormalize cfg url with
    | error e =>
      rw [processUrl_fields_error cfg rs url e hf]
    | ok t =>
      rw [processUrl_changed_eq cfg rs url t hf]
      rcases hh : (lookupKey url rs.state).bind Entry.hash? with _ | ph
      · rfl
      · rcases hp : lookupKey (cfg.urlKey url) rs.dir with _ | pt
        · rfl
        · rw [hh] at h
          simp [pyTruthy] at h
          dsimp only
          rw [if_neg (fun hc => hc.1 h)]
  · intro t ht
    obtain ⟨he, hst, hdir, -⟩ := processUrl_fields_ok cfg rs url t ht
    refine ⟨he, ?_, ?_⟩
    · rw [hdir]
      exact lookupKey_setKey_self _ _ _
    · rw [hst]
      exact lookupKey_setKey_self _ _ _

theorem missing_hash_never_changed_witness :
    (processUrl sampleConfig sampleRunNoHash "u").changed_reports =
        sampleRunNoHash.changed_reports ∧
      ∀ t, fetchNormalize sampleConfig "u" = Except.ok t →
        (processUrl sampleConfig sampleRunNoHash "u").errors = sampleRunNoHash.errors ∧
        lookupKey (sampleConfig.urlKey "u")
            (processUrl sampleConfig sampleRunNoHash "u").dir = some t ∧
        lookupKey "u" (processUrl sampleConfig sampleRunNoHash "u").state =
          some { hash? := some (sampleConfig.hash t),
                 last_checked? := some sampleConfig.nowIso } :=
  missing_hash_never_changed sampleConfig sampleRunNoHash "u" (by decide)

/-- C7: the notification body built by main for one changed URL: line 235
of src/check_urls.py appends `f""` — an empty string — where its own
comment says the URL must always be displayed, so the changed-URL block
contains an empty line instead of the URL header and the URL never
appears in the body; the diff lines, the too-large marker for an empty
diff list, and the error block lines are as described. -/
theorem body_omits_changed_url :
    buildBody [("https://example.com/subsidy", ["-Program A: open", "+Program A: closed"])] [] =
      ["■ 更新が検知されたURL（差分 +追加 / -削除：最大20行）", "", "",
        "-Program A: open", "+Program A: closed", "", "（このメールは自動送信です）"] ∧
    "https://example.com/subsidy" ∉
      buildBody [("https://example.com/subsidy", ["-Program A: open", "+Program A: closed"])] [] ∧
    buildBody [] [("https://example.com/subsidy", "timed out")] =
      ["■ 取得エラー（サイト側ブロック/一時障害の可能性）",
        "- https://example.com/subsidy : timed out", "", "（このメールは自動送信です）"] ∧
    buildBody [("https://example.com/subsidy", [])] [] =
      ["■ 更新が検知されたURL（差分 +追加 / -削除：最大20行）", "", "",
        "(差分が大きい/特殊で20行以内に収まりませんでした)", "", "（このメールは自動送信です）"] := by
  refine ⟨?_, ?_, ?_, ?_⟩ <;> decide

/-- 21 distinct non-blank lines. -/
def manyLines21 : String :=
  "L01\nL02\nL03\nL04\nL05\nL06\nL07\nL08\nL09\nL10\nL11\nL12\nL13\nL14\nL15\nL16\nL17\nL18\nL19\nL20\nL21"

/-- The first 20 of the same lines. -/
def manyLines20 : String :=
  "L01\nL02\nL03\nL04\nL05\nL06\nL07\nL08\nL09\nL10\nL11\nL12\nL13\nL14\nL15\nL16\nL17\nL18\nL19\nL20"

/-- C8 counterexample: make_diff returns only a list and carries no
truncation indicator.  Going from empty text to 21 distinct lines the
underlying diff has 21 displayable changed lines (truncation occurs),
going to 20 lines it has exactly 20 (no truncation), yet make_diff
returns the identical 20-line list in both cases, so the caller cannot
learn that truncation occurred. -/
theorem make_diff_no_truncation_signal :
    make_diff "" manyLines21 20 = make_diff "" manyLines20 20 ∧
    make_diff "" manyLines21 20 ≠ [] ∧
    20 < countDisplay (unified_diff (pySplitlines "") (pySplitlines manyLines21)) ∧
    countDisplay (unified_diff (pySplitlines "") (pySplitlines manyLines20)) = 20 := by
  refine ⟨?_, ?_, ?_, ?_⟩ <;> decide

/-- C8 (amended): whenever the underlying unified diff holds at least N
displayable changed lines (N ≥ 1), make_diff returns exactly N lines;
but no truncation indicator accompanies them — the caller only receives
the list (the empty-or-all-filtered case is what main renders with the
too-large marker). -/
theorem make_diff_exact_cap (prev curr : String) (N : Nat) (h1 : 0 < N)
    (h2 : N ≤ countDisplay (unified_diff (pySplitlines prev) (pySplitlines curr))) :
    (make_diff prev curr N).length = N := by
  unfold make_diff
  exact pickLoop_length_eq N _ [] (by simpa using h1) (by simpa using h2)

theorem make_diff_exact_cap_witness :
    (make_diff "" "L01\nL02\nL03" 2).length = 2 :=
  make_diff_exact_cap "" "L01\nL02\nL03" 2 (by decide) (by decide)

end CheckUrls
